import Mathlib

/-!
Verification development for the wallet-position lookup service (`src/app.py`)
and the spec's tweet-analytics pipeline components.

The first part is a shallow embedding of the Python code in `app.py`:
JSON values are an inductive type mirroring what `response.json()` can
produce (with Python's `None` and JSON `null` identified, as they are in
Python), Python truthiness and the `a or b` operator are modelled
explicitly, and every parsing function follows the source line by line.
Machine floats are modelled as rationals; `float(·)`/`int(·)`/`str(·)`
coercions are modelled on the fragments of their domains the code can
meet (documented at each definition).

The second part models, from the spec alone, the components of the
tweet-analytics pipeline that are not part of `src/` (text normalizer,
ingestion adapter, cache manager); those definitions carry a
`Modelled from the spec:` note.
-/

/-- A JSON value as produced by `response.json()` in Python.  Python's
`None` and JSON `null` are identified (Python maps `null` to `None`).
JSON numbers keep Python's `int`/`float` distinction; floats are modelled
as rationals. -/
inductive JValue
  | null
  | bool (b : Bool)
  | int (n : Int)
  | float (q : Rat)
  | str (s : String)
  | arr (xs : List JValue)
  | obj (fields : List (String × JValue))

/-- Python truthiness of a JSON value: `None`, `False`, `0`, `0.0`, `""`,
`[]` and the empty dict are falsy, everything else is truthy. -/
def truthy : JValue → Bool
  | .null => false
  | .bool b => b
  | .int n => n != 0
  | .float q => q != 0
  | .str s => s != ""
  | .arr xs => !xs.isEmpty
  | .obj fs => !fs.isEmpty

/-- Whether a value is Python `None` (JSON `null`). -/
def isNull : JValue → Bool
  | .null => true
  | _ => false

/-- Whether a value is a Python dict (JSON object). -/
def is_obj : JValue → Bool
  | .obj _ => true
  | _ => false

/-- Python's short-circuit `a or b`: the left value if it is truthy,
otherwise the right value. -/
def pyOr (a b : JValue) : JValue := if truthy a then a else b

/-- `d.get(k)` on a dict given as a field list: the stored value, or
`None` when the key is absent. -/
def dictGet (fields : List (String × JValue)) (k : String) : JValue :=
  (fields.lookup k).getD .null

/-- `item.get(k)` where `item` is known to be a dict in the source (the
code guards every such call with an `isinstance(·, dict)` check or a
`Dict` annotation); on a non-dict the model returns `None`. -/
def pyGet : JValue → String → JValue
  | .obj fs, k => dictGet fs k
  | _, _ => .null

/-- The value of a decimal digit string (most significant digit first). -/
def digitsToNat (l : List Char) : Nat :=
  l.foldl (fun a c => a * 10 + (c.toNat - 48)) 0

/-- Unsigned part of Python `float(str)`: digits, with an optional
decimal point (`"1"`, `"1.5"`, `"1."`, `".5"`).  Exponents and the
`inf`/`nan` spellings accepted by Python are outside the model; no claim
touches them. -/
def parseUnsignedFloat (l : List Char) : Option Rat :=
  let ip := l.takeWhile Char.isDigit
  let rest := l.dropWhile Char.isDigit
  match rest with
  | [] => if ip.isEmpty then none else some ((digitsToNat ip : Nat) : Rat)
  | '.' :: fp =>
    if fp.all Char.isDigit && !(ip.isEmpty && fp.isEmpty) then
      some (((digitsToNat ip : Nat) : Rat) + ((digitsToNat fp : Nat) : Rat) / ((10 : Rat) ^ fp.length))
    else none
  | _ => none

/-- Signed part of Python `float(str)` after whitespace stripping. -/
def parseSignedFloat : List Char → Option Rat
  | '-' :: rest => (parseUnsignedFloat rest).map (fun q => -q)
  | '+' :: rest => parseUnsignedFloat rest
  | l => parseUnsignedFloat l

/-- Strip leading and trailing whitespace from a character list, as
Python's `str.strip()` does. -/
def stripChars (l : List Char) : List Char :=
  ((l.dropWhile Char.isWhitespace).reverse.dropWhile Char.isWhitespace).reverse

/-- Python `float(s)` on a string: surrounding whitespace is ignored,
then an optionally signed decimal literal is accepted;
`ValueError` is modelled as `none`. -/
def parseFloatStr (s : String) : Option Rat :=
  parseSignedFloat (stripChars s.data)

/-- `_coerce_float` from `app.py`: `None` stays `None`; `float(value)`
is returned when the conversion succeeds and `None` when it raises
`TypeError`/`ValueError`.  `float` of a bool is 1 or 0, of a number the
number itself, of a string its parsed value; lists and dicts raise. -/
def coerce_float : JValue → Option Rat
  | .null => none
  | .bool b => some (if b then 1 else 0)
  | .int n => some ((n : Int) : Rat)
  | .float q => some q
  | .str s => parseFloatStr s
  | .arr _ => none
  | .obj _ => none

/-- Python `str(v)`.  Faithful on the values the claims exercise
(`None`, bools, ints, strings); the float/list/dict renderings are
model placeholders no claim depends on. -/
def pyStr : JValue → String
  | .null => "None"
  | .bool b => if b then "True" else "False"
  | .int n => toString n
  | .float q => toString q
  | .str s => s
  | .arr _ => "[...]"
  | .obj _ => "\x7b...\x7d"

/-- Strip surrounding whitespace, then parse an optionally signed
integer literal, as Python `int(str)` does. -/
def parseIntStr (s : String) : Option Int :=
  match stripChars s.data with
  | '-' :: rest => if !rest.isEmpty && rest.all Char.isDigit then some (-(digitsToNat rest : Int)) else none
  | '+' :: rest => if !rest.isEmpty && rest.all Char.isDigit then some ((digitsToNat rest : Int)) else none
  | l => if !l.isEmpty && l.all Char.isDigit then some ((digitsToNat l : Int)) else none

/-- Python `int(v)`: bools map to 0/1, ints stay, floats truncate toward
zero, strings parse as integer literals; `None`, lists and dicts raise
(`none`). -/
def pyInt : JValue → Option Int
  | .null => none
  | .bool b => some (if b then 1 else 0)
  | .int n => some n
  | .float q => some (Int.tdiv q.num (q.den : Int))
  | .str s => parseIntStr s
  | .arr _ => none
  | .obj _ => none

/-- Python list indexing `xs[i]` with negative-index wrap-around;
`IndexError` is `none` (the caller catches it). -/
def pyIndex (xs : List JValue) (i : Int) : Option JValue :=
  if 0 ≤ i then xs[i.toNat]?
  else
    let j : Int := (xs.length : Int) + i
    if 0 ≤ j then xs[j.toNat]? else none

/-- The `item.get(k1) or item.get(k2) or ... or item.get(kn)` fallback
idiom used throughout `app.py` for price/size/net-position extraction:
the chain evaluates to the first truthy candidate, and to the last
candidate's value when every candidate is falsy. -/
def chain_get (item : JValue) : List String → JValue
  | [] => .null
  | [k] => pyGet item k
  | k :: ks => pyOr (pyGet item k) (chain_get item ks)

/-- The ordered-fallback extraction as the code implements it:
`_coerce_float` applied to the `or`-chain over the candidate keys. -/
def extract_float (item : JValue) (keys : List String) : Option Rat :=
  coerce_float (chain_get item keys)

/-- The ordered-fallback extraction as the spec words it: the first
candidate value that is present and non-null, coerced to float (`none`
on coercion failure); `none` when no candidate is present and non-null.
This is the spec-side definition for the refinement comparison of C1. -/
def extract_float_spec (item : JValue) (keys : List String) : Option Rat :=
  match (keys.map (pyGet item)).find? (fun v => !isNull v) with
  | some v => coerce_float v
  | none => none

/-- The `Position` dataclass.  `market_question`/`market_slug` hold
whatever value the extraction chains produce (the Python `Optional[str]`
annotations are not enforced at runtime), with `JValue.null` for `None`. -/
structure Position where
  market_question : JValue
  market_slug : JValue
  outcome : Option String
  net_position : Option Rat
  average_price : Option Rat
  last_price : Option Rat
  value : Option Rat
  raw : JValue

/-- The `LimitOrder` dataclass.  `order_id` is always assigned
`str(...)` in the source, hence a `String` here. -/
structure LimitOrder where
  order_id : String
  market_question : JValue
  market_slug : JValue
  outcome : Option String
  side : JValue
  order_type : JValue
  price : Option Rat
  size : Option Rat
  remaining_size : Option Rat
  status : JValue
  created_at : JValue
  raw : JValue

/-- The exception an extraction or parse step can raise: Python's
`AttributeError` from calling `.get` on a non-dict value.  Nothing in
`app.py` catches it. -/
inductive PyAttrErr
  | attributeError
deriving DecidableEq

/-- `_extract_market_question`: `market = payload.get("market") or {}`
followed by the five-way `or` fallback.  The `or {}` default only
replaces *falsy* values, and Python evaluates the chain lazily:
`market.get("question")` is reached only when `marketQuestion` and
`question` are falsy, and raises `AttributeError` when `market` is a
truthy non-dict. -/
def extract_market_question (payload : JValue) : Except PyAttrErr JValue :=
  let market := pyOr (pyGet payload "market") (.obj [])
  let q1 := pyGet payload "marketQuestion"
  if truthy q1 then .ok q1
  else
    let q2 := pyGet payload "question"
    if truthy q2 then .ok q2
    else
      match market with
      | .obj fs =>
        .ok (pyOr (dictGet fs "question") (pyOr (dictGet fs "title") (dictGet fs "name")))
      | _ => .error .attributeError

/-- `_extract_market_slug`: same laziness; `market.get("slug")` is
reached only when `marketSlug` is falsy, and raises on a truthy
non-dict `market`. -/
def extract_market_slug (payload : JValue) : Except PyAttrErr JValue :=
  let market := pyOr (pyGet payload "market") (.obj [])
  let s1 := pyGet payload "marketSlug"
  if truthy s1 then .ok s1
  else
    match market with
    | .obj fs => .ok (pyOr (dictGet fs "slug") (dictGet fs "url"))
    | _ => .error .attributeError

/-- `_extract_outcome`: the four-way `or` chain, `str(·)` if the result
is not `None`; otherwise `market.get("outcomes")` runs — raising
`AttributeError` on a truthy non-dict `market` — and the list is
indexed by `int(outcomeIndex or outcome_id)` with
`TypeError`/`ValueError`/`IndexError` all caught to `None`. -/
def extract_outcome (payload : JValue) : Except PyAttrErr (Option String) :=
  let outcome := pyOr (pyGet payload "outcome")
    (pyOr (pyGet payload "outcomeName")
      (pyOr (pyGet payload "token") (pyGet payload "asset")))
  if !isNull outcome then .ok (some (pyStr outcome))
  else
    let market := pyOr (pyGet payload "market") (.obj [])
    match market with
    | .obj fs =>
      match dictGet fs "outcomes" with
      | .arr outcomes =>
        let idx := pyOr (pyGet payload "outcomeIndex") (pyGet payload "outcome_id")
        if isNull idx then .ok none
        else
          match pyInt idx with
          | none => .ok none
          | some i =>
            match pyIndex outcomes i with
            | none => .ok none
            | some v => .ok (some (pyStr v))
      | _ => .ok none
    | _ => .error .attributeError

/-- The loop body of `_parse_positions` applied to one dict item; an
`AttributeError` in any extraction aborts the whole parse. -/
def parse_position_item (item : JValue) : Except PyAttrErr Position :=
  match extract_market_question item with
  | .error e => .error e
  | .ok mq =>
    match extract_market_slug item with
    | .error e => .error e
    | .ok ms =>
      match extract_outcome item with
      | .error e => .error e
      | .ok oc =>
        .ok ⟨mq, ms, oc,
          extract_float item ["netPosition", "net_position", "balance", "size"],
          extract_float item ["averagePrice", "average_price", "avgPrice"],
          extract_float item ["lastPrice", "last_price", "price"],
          extract_float item ["value", "markToMarketValue", "mtmValue"],
          item⟩

/-- The `for item in raw_positions` loop: non-dict items are skipped
with `continue`, dict items are parsed and appended; an item whose
parse raises aborts the loop (the exception propagates). -/
def parse_position_items : List JValue → Except PyAttrErr (List Position)
  | [] => .ok []
  | item :: rest =>
    if is_obj item then
      match parse_position_item item with
      | .error e => .error e
      | .ok p =>
        match parse_position_items rest with
        | .error e => .error e
        | .ok ps => .ok (p :: ps)
    else parse_position_items rest

/-- `_parse_positions`: `payload.get("positions")` raises
`AttributeError` on a non-dict payload (the `Dict` annotation is not
enforced); on a dict, unwrap `positions`/`data` wrappers (twice, as the
source does), return `[]` unless a list remains, then run the item
loop. -/
def parse_positions (payload : JValue) : Except PyAttrErr (List Position) :=
  match payload with
  | .obj fields =>
    let rp0 : JValue := dictGet fields "positions"
    let rp1 : JValue := if isNull rp0 then pyOr (dictGet fields "data") (.obj fields) else rp0
    let rp2 : JValue :=
      match rp1 with
      | .obj fs => pyOr (dictGet fs "positions") (dictGet fs "data")
      | v => v
    match rp2 with
    | .arr items => parse_position_items items
    | _ => .ok []
  | _ => .error .attributeError

/-- The loop body of `_parse_orders` applied to one dict item.
`order_id` is `str(item.get("id") or item.get("orderId") or
item.get("order_id"))`; an `AttributeError` in the market/outcome
extractions aborts the whole parse. -/
def parse_order_item (item : JValue) : Except PyAttrErr LimitOrder :=
  match extract_market_question item with
  | .error e => .error e
  | .ok mq =>
    match extract_market_slug item with
    | .error e => .error e
    | .ok ms =>
      match extract_outcome item with
      | .error e => .error e
      | .ok oc =>
        .ok ⟨pyStr (chain_get item ["id", "orderId", "order_id"]), mq, ms, oc,
          chain_get item ["side", "orderSide", "type"],
          chain_get item ["orderType", "type", "kind"],
          extract_float item ["price", "limitPrice", "avg_price"],
          extract_float item ["size", "originalSize", "original_size", "quantity"],
          extract_float item ["remainingSize", "remaining_size", "leavesQuantity"],
          pyGet item "status",
          chain_get item ["created_at", "createdAt", "timestamp"],
          item⟩

/-- The `for item in raw_orders` loop: non-dict items are skipped; a
raising item aborts the loop. -/
def parse_order_items : List JValue → Except PyAttrErr (List LimitOrder)
  | [] => .ok []
  | item :: rest =>
    if is_obj item then
      match parse_order_item item with
      | .error e => .error e
      | .ok p =>
        match parse_order_items rest with
        | .error e => .error e
        | .ok ps => .ok (p :: ps)
    else parse_order_items rest

/-- `_parse_orders` on an arbitrary JSON payload; non-dict payloads
raise at `payload.get("orders")`. -/
def parse_orders (payload : JValue) : Except PyAttrErr (List LimitOrder) :=
  match payload with
  | .obj fields =>
    let rp0 : JValue := dictGet fields "orders"
    let rp1 : JValue := if isNull rp0 then pyOr (dictGet fields "data") (.obj fields) else rp0
    let rp2 : JValue :=
      match rp1 with
      | .obj fs => pyOr (dictGet fs "orders") (dictGet fs "data")
      | v => v
    match rp2 with
    | .arr items => parse_order_items items
    | _ => .ok []
  | _ => .error .attributeError

/-- The body of an HTTP response once received: either not valid JSON,
or an arbitrary JSON value (`response.json()` can return any shape;
the `Dict[str, Any]` annotations are not enforced at runtime). -/
inductive FetchBody
  | invalid
  | valid (v : JValue)

/-- Outcome of one `requests.get` call: a transport failure
(`requests.RequestException`) or a response with a status code and body. -/
inductive FetchOutcome
  | netError
  | response (status : Nat) (body : FetchBody)

/-- Whether an `Except` computation ended in an error. -/
def isErr {ε α : Type} : Except ε α → Bool
  | .error _ => true
  | .ok _ => false

/-- The exceptions a wallet fetch can raise: `PolymarketAPIError`
(raised by `_fetch_json`, caught per address in the endpoint) or the
uncaught `AttributeError` escaping the parser. -/
inductive PyExc
  | apiError (msg : String)
  | attributeError
deriving DecidableEq

/-- Whether a fetch ended in a `PolymarketAPIError` (as opposed to
succeeding or raising an uncaught `AttributeError`). -/
def is_api_err {α : Type} : Except PyExc α → Bool
  | .error (.apiError _) => true
  | _ => false

/-- `_fetch_json`: transport failures, non-200 statuses and invalid
JSON all raise `PolymarketAPIError` (modelled as `.apiError` with the
source's message, the status message abridged to its fixed prefix);
a 200 response with valid JSON is returned as-is. -/
def fetch_json : FetchOutcome → Except PyExc JValue
  | .netError => .error (.apiError "Unable to reach Polymarket API")
  | .response status body =>
    if status ≠ 200 then
      .error (.apiError ("Polymarket API returned status " ++ toString status))
    else
      match body with
      | .invalid => .error (.apiError "Polymarket API returned invalid JSON")
      | .valid v => .ok v

/-- `fetch_wallet_positions`, with the network call abstracted into the
`FetchOutcome` the wallet's positions URL produced; a parse-time
`AttributeError` propagates uncaught. -/
def fetch_wallet_positions (o : FetchOutcome) : Except PyExc (List Position) :=
  match fetch_json o with
  | .error e => .error e
  | .ok payload =>
    match parse_positions payload with
    | .error _ => .error .attributeError
    | .ok ps => .ok ps

/-- `fetch_wallet_orders`, same abstraction. -/
def fetch_wallet_orders (o : FetchOutcome) : Except PyExc (List LimitOrder) :=
  match fetch_json o with
  | .error e => .error e
  | .ok payload =>
    match parse_orders payload with
    | .error _ => .error .attributeError
    | .ok os => .ok os

/-- Python `str.strip()` on a `String`. -/
def pyStrip (s : String) : String := .mk (stripChars s.data)

/-- Python `str.lower()`; faithful on the ASCII addresses the claims
exercise. -/
def pyLower (s : String) : String := .mk (s.data.map Char.toLower)

/-- One character of `[a-fA-F0-9]`. -/
def isHexChar (c : Char) : Bool :=
  c.isDigit || ('a' ≤ c && c ≤ 'f') || ('A' ≤ c && c ≤ 'F')

/-- `ADDRESS_RE.match(s)`: the anchored pattern `^0x[a-fA-F0-9]{40}$`.
The `$`-before-final-newline subtlety of Python regexes is unreachable
here because every candidate has been stripped of trailing whitespace. -/
def address_re_match (s : String) : Bool :=
  match s.data with
  | '0' :: 'x' :: rest => rest.length == 40 && rest.all isHexChar
  | _ => false

/-- The loop of `normalize_addresses` with the `seen` set made explicit:
non-strings are skipped, entries are stripped, empty results skipped,
lowercased, pattern-checked (raising `ValueError` with the raw entry in
the message on failure), and appended unless already seen. -/
def normalize_addresses_go (seen : List String) : List JValue → Except String (List String)
  | [] => .ok []
  | raw :: rest =>
    match raw with
    | .str s =>
      let c0 := pyStrip s
      if c0 = "" then normalize_addresses_go seen rest
      else
        let c := pyLower c0
        if address_re_match c = false then .error ("Invalid Polygon wallet address: " ++ s)
        else if seen.contains c then normalize_addresses_go seen rest
        else (normalize_addresses_go (c :: seen) rest).map (fun out => c :: out)
    | _ => normalize_addresses_go seen rest

/-- `normalize_addresses` from `app.py`. -/
def normalize_addresses (addrs : List JValue) : Except String (List String) :=
  normalize_addresses_go [] addrs

/-- The stripped, lowercased string entries of the input that survive
the skip rules (spec-side characterisation for C5): non-strings and
entries that strip to the empty string are dropped. -/
def address_candidates (addrs : List JValue) : List String :=
  addrs.filterMap (fun v =>
    match v with
    | .str s => if pyStrip s = "" then none else some (pyLower (pyStrip s))
    | _ => none)

/-- Deduplication keeping the first occurrence of each element, the
order Python's `seen`-set loop produces. -/
def dedup_first : List String → List String
  | [] => []
  | x :: xs => x :: dedup_first (xs.filter (fun y => y ≠ x))
termination_by l => l.length
decreasing_by
simp only [List.length_cons]
have := List.length_filter_le (fun y => decide (y ≠ x)) xs
omega

/-- One entry of the `results` array of `/api/wallets`: the address,
the `positions`/`open_orders` keys when their fetch succeeded, and the
`error` key when a fetch raised `PolymarketAPIError`. -/
structure WalletEntry where
  address : String
  positions : Option (List Position)
  open_orders : Option (List LimitOrder)
  error : Option String

/-- One iteration of the wallet loop: positions are fetched first, and
an orders `PolymarketAPIError` leaves the already-assigned positions in
place, as the `try` block in the source does; only `PolymarketAPIError`
is caught — an `AttributeError` escapes the loop. -/
def build_wallet_entry (po oo : String → FetchOutcome) (a : String) :
    Except PyExc WalletEntry :=
  match fetch_wallet_positions (po a) with
  | .error (.apiError e) => .ok ⟨a, none, none, some e⟩
  | .error .attributeError => .error .attributeError
  | .ok ps =>
    match fetch_wallet_orders (oo a) with
    | .error (.apiError e) => .ok ⟨a, some ps, none, some e⟩
    | .error .attributeError => .error .attributeError
    | .ok os => .ok ⟨a, some ps, some os, none⟩

/-- The `for address in normalized` loop building `results`: an
uncaught exception in any iteration aborts the whole request. -/
def wallet_results (po oo : String → FetchOutcome) :
    List String → Except PyExc (List WalletEntry)
  | [] => .ok []
  | a :: rest =>
    match build_wallet_entry po oo a with
    | .error e => .error e
    | .ok w =>
      match wallet_results po oo rest with
      | .error e => .error e
      | .ok ws => .ok (w :: ws)

/-- The request body as seen by `request.get_json(force=True)`: either
unparseable (the call raises) or a JSON value. -/
inductive ReqBody
  | invalid
  | json (v : JValue)

/-- The body of the endpoint's HTTP response: a structured error payload
with a message, the success payload with `requested_at` and `results`,
or Flask's unhandled-exception page (an uncaught `AttributeError`
escaping the endpoint, served with HTTP 500 and no payload of the
endpoint's own making). -/
inductive SnapshotBody
  | err (msg : String)
  | ok (requested_at : String) (results : List WalletEntry)
  | crash

/-- The `/api/wallets` endpoint `wallet_snapshot`: status code and body.
`now` stands for `datetime.now(timezone.utc).isoformat()`; the two
oracles give the network outcome of the positions and orders requests
per address. -/
def wallet_snapshot (now : String) (po oo : String → FetchOutcome) (body : ReqBody) :
    Nat × SnapshotBody :=
  match body with
  | .invalid => (400, .err "Request body must be valid JSON.")
  | .json payload =>
    let addresses : JValue :=
      match payload with
      | .obj fs => dictGet fs "addresses"
      | _ => .null
    match addresses with
    | .arr addrs =>
      match normalize_addresses addrs with
      | .error e => (400, .err e)
      | .ok normalized =>
        if normalized.isEmpty then
          (400, .err "Provide at least one valid Polygon wallet address.")
        else
          match wallet_results po oo normalized with
          | .ok rs => (200, .ok now rs)
          | .error _ => (500, .crash)
    | _ => (400, .err "`addresses` must be a list of wallet addresses.")

/-- Length of `dropWhile` never exceeds the input's length (used for
termination of the scanners below). -/
theorem dropWhile_len_le (p : Char → Bool) (l : List Char) :
    (l.dropWhile p).length ≤ l.length :=
  List.IsSuffix.length_le (List.dropWhile_suffix p)

/-- A non-whitespace character. -/
def notWsC (c : Char) : Bool := !c.isWhitespace

/-- A word character, `\w` of the mention pattern: alphanumeric or
underscore. -/
def wordChar (c : Char) : Bool := c.isAlphanum || c == '_'

/-- Whether the text begins with a URL-looking start: the letters
`http`.  Modelled from the spec: the Text Normalizer's "URL-looking
substrings" are `http` followed by the run of non-whitespace characters
after it. -/
def httpHead (l : List Char) : Bool :=
  match l with
  | c1 :: c2 :: c3 :: c4 :: _ => c1 == 'h' && c2 == 't' && c3 == 't' && c4 == 'p'
  | _ => false

/-- Whether the text begins with an @-mention: `@` followed by at least
one word character. -/
def mentionHead (l : List Char) : Bool :=
  match l with
  | c1 :: c2 :: _ => c1 == '@' && wordChar c2
  | _ => false

/-- Modelled from the spec: the Text Normalizer is not under `src/`.
First pass: remove every URL-looking substring, i.e. each occurrence of
`http` together with the non-whitespace run following it. -/
def strip_urls : List Char → List Char
  | [] => []
  | c :: cs =>
    if httpHead (c :: cs) then strip_urls (cs.dropWhile notWsC)
    else c :: strip_urls cs
termination_by l => l.length
decreasing_by
all_goals simp only [List.length_cons]
all_goals try have := dropWhile_len_le notWsC cs
all_goals omega

/-- Modelled from the spec: second pass of the Text Normalizer, removing
every @-mention (`@` plus the maximal word-character run after it; a
bare `@` with no word character after it stays). -/
def strip_mentions : List Char → List Char
  | [] => []
  | c :: cs =>
    if mentionHead (c :: cs) then strip_mentions (cs.dropWhile wordChar)
    else c :: strip_mentions cs
termination_by l => l.length
decreasing_by
all_goals simp only [List.length_cons]
all_goals try have := dropWhile_len_le wordChar cs
all_goals omega

/-- Modelled from the spec: third pass, removing the bare hashtag marker
characters while keeping the word. -/
def strip_hashes (l : List Char) : List Char := l.filter (fun c => c != '#')

/-- The maximal non-whitespace runs of a character list, in order. -/
def words_of : List Char → List (List Char)
  | [] => []
  | c :: cs =>
    if c.isWhitespace then words_of cs
    else (c :: cs.takeWhile notWsC) :: words_of (cs.dropWhile notWsC)
termination_by l => l.length
decreasing_by
all_goals simp only [List.length_cons]
all_goals try have := dropWhile_len_le notWsC cs
all_goals omega

/-- Join words with single spaces. -/
def join_words : List (List Char) → List Char
  | [] => []
  | [w] => w
  | w :: ws => w ++ ' ' :: join_words ws

/-- Modelled from the spec: fourth pass, collapsing every whitespace run
to a single space and trimming both ends. -/
def collapse_ws (l : List Char) : List Char := join_words (words_of l)

/-- Modelled from the spec: the Text Normalizer `normalize(text)`, in
the spec's order of operations: URLs, then @-mentions, then hashtag
markers, then whitespace collapsing.  (Named `normalize_text` here; the
bare name `normalize` is taken by the mathematical library.) -/
def normalize_text (text : List Char) : List Char :=
  collapse_ws (strip_hashes (strip_mentions (strip_urls text)))

/-- Modelled from the spec: an internal Record of the Ingestion
Adapter: source id, timezone-aware timestamp (an instant, modelled as an
integer), raw body, and the four engagement counters. -/
structure TweetRecord where
  id : Nat
  timestamp : Int
  body : String
  likes : Nat
  replies : Nat
  retweets : Nat
  quotes : Nat

/-- Modelled from the spec: a raw item as delivered by the external
search-style source; identifier or timestamp may fail to parse (`none`),
engagement counters may be missing. -/
structure RawPost where
  id : Option Nat
  timestamp : Option Int
  body : String
  likes : Option Nat
  replies : Option Nat
  retweets : Option Nat
  quotes : Option Nat

/-- Modelled from the spec: defensive field mapping of one raw item; a
record with an unparseable identifier or timestamp is dropped, missing
engagement counters default to 0. -/
def parse_post (p : RawPost) : Option TweetRecord :=
  match p.id, p.timestamp with
  | some i, some t =>
    some ⟨i, t, p.body, p.likes.getD 0, p.replies.getD 0, p.retweets.getD 0, p.quotes.getD 0⟩
  | _, _ => none

/-- Modelled from the spec: the Ingestion Adapter's iteration over the
source's delivery order, stopping as soon as `cap` records have been
collected or an item's timestamp is strictly older than the cutoff;
unparseable items are dropped without consuming the cap. -/
def ingest_loop : Int → Nat → List RawPost → List TweetRecord
  | _, _, [] => []
  | _, 0, _ :: _ => []
  | cutoff, Nat.succ k, p :: ps =>
    match parse_post p with
    | none => ingest_loop cutoff (Nat.succ k) ps
    | some r => if r.timestamp < cutoff then [] else r :: ingest_loop cutoff k ps

/-- Ordering of records by timestamp. -/
def tsLE (a b : TweetRecord) : Prop := a.timestamp ≤ b.timestamp

instance : DecidableRel tsLE := fun a b => Int.decLe a.timestamp b.timestamp

instance : IsTotal TweetRecord tsLE := ⟨fun a b => Int.le_total a.timestamp b.timestamp⟩

instance : IsTrans TweetRecord tsLE := ⟨fun _ _ _ => Int.le_trans⟩

/-- Modelled from the spec: `fetch(cap)` of the Ingestion Adapter — the
early-stopping collection over the source stream, re-sorted ascending by
timestamp before being returned. -/
def ingest_fetch (cutoff : Int) (cap : Nat) (src : List RawPost) : List TweetRecord :=
  List.insertionSort tsLE (ingest_loop cutoff cap src)

/-- Modelled from the spec: one request against the Cache/Staleness
Manager's single slot.  The state is `none` (EMPTY) or the entry with
its build timestamp; `rebuild` is the outcome of the rebuild attempt the
manager would make (`none` = failure).  Returns the new state and the
response, `none` meaning an error is surfaced to the caller.  FRESH
entries are returned without rebuild; STALE entries are rebuilt, a
failed rebuild retaining and serving the old entry. -/
def cache_request {α : Type} (window now : Int) (st : Option (α × Int)) (rebuild : Option α) :
    Option (α × Int) × Option α :=
  match st with
  | none =>
    match rebuild with
    | some d => (some (d, now), some d)
    | none => (none, none)
  | some (d, t) =>
    if now - t < window then (some (d, t), some d)
    else
      match rebuild with
      | some d2 => (some (d2, now), some d2)
      | none => (some (d, t), some d)

/-- A value is `null` exactly when `isNull` says so. -/
theorem eq_null_of_isNull {v : JValue} (h : isNull v = true) : v = .null := by
  cases v <;> simp [isNull] at h ⊢

/-- `Except.map` does not change whether the computation errored. -/
theorem isErr_map {ε α β : Type} (f : α → β) (e : Except ε α) :
    isErr (e.map f) = isErr e := by
  cases e <;> rfl

/-- C1.  The claim says the fallback extraction returns the first
*present non-null* candidate, in particular a present `0`.  The code's
`or`-chains skip every *falsy* value instead: with
`netPosition = 0` and `size = 5`, the net-position chain of
`_parse_positions` yields `5.0`, while the spec-side first-non-null
extraction yields `0.0`. -/
theorem c1_counterexample_zero_skipped :
    extract_float (.obj [("netPosition", .int 0), ("size", .int 5)])
      ["netPosition", "net_position", "balance", "size"] = some 5 ∧
    extract_float_spec (.obj [("netPosition", .int 0), ("size", .int 5)])
      ["netPosition", "net_position", "balance", "size"] = some 0 ∧
    (some (5 : Rat) ≠ some (0 : Rat)) ∧
    (parse_position_items [.obj [("netPosition", .int 0), ("size", .int 5)]]).map
      (fun l => l.map Position.net_position) = .ok [some 5] := by
  refine ⟨by decide, by decide, by decide, rfl⟩

/-- C1 (amended).  The ordered-fallback extraction returns the first
candidate whose value is truthy, coerced to float (null on coercion
failure); when no candidate is truthy it coerces the last candidate's
value; a present falsy value such as 0 is therefore skipped in favour of
a later truthy candidate. -/
theorem c1_ordered_fallback_truthy :
    ∀ (item : JValue) (keys : List String),
      extract_float item keys =
        coerce_float (((keys.map (pyGet item)).find? truthy).getD
          (((keys.map (pyGet item)).getLast?).getD .null)) := by
  intro item keys
  induction keys with
  | nil => rfl
  | cons k ks ih =>
    cases ks with
    | nil =>
      simp only [extract_float, chain_get, List.map_cons, List.map_nil, List.find?_cons]
      by_cases h : truthy (pyGet item k) <;> simp [h]
    | cons k2 ks2 =>
      by_cases h : truthy (pyGet item k)
      · simp [extract_float, chain_get, pyOr, h, List.find?_cons]
      · have hc : extract_float item (k :: k2 :: ks2) = extract_float item (k2 :: ks2) := by
          simp [extract_float, chain_get, pyOr, h]
        rw [hc, ih]
        simp only [List.map_cons, List.find?_cons, h, List.getLast?_cons_cons]

/-- C2.  A reachable source answering 200 with valid JSON and zero
items makes `fetch_wallet_positions` return an empty *successful* list;
no "no data" error is raised, contrary to the claim. -/
theorem c2_counterexample_empty_success :
    fetch_wallet_positions (.response 200 (.valid (.obj [("positions", .arr [])]))) =
      .ok [] ∧
    isErr (fetch_wallet_positions
      (.response 200 (.valid (.obj [("positions", .arr [])])))) = false :=
  ⟨rfl, rfl⟩

/-- C2 (amended).  A fetch of wallet data raises `PolymarketAPIError`
exactly when the source is unreachable, returns a non-200 status, or
returns invalid JSON — never for an empty or zero-item payload, which
parses to an empty successful list; a 200 valid-JSON response is handed
to the parser as-is, whose `AttributeError` (on a payload shape that
poisons it) propagates uncaught instead of becoming a "no data"
condition.  Positions and orders behave alike. -/
theorem c2_api_error_iff_transport :
    (∀ o : FetchOutcome, is_api_err (fetch_wallet_positions o) = true ↔
      (o = .netError ∨ (∃ s b, o = .response s b ∧ s ≠ 200) ∨ o = .response 200 .invalid)) ∧
    (∀ o : FetchOutcome, is_api_err (fetch_wallet_orders o) =
      is_api_err (fetch_wallet_positions o)) ∧
    (∀ v, fetch_wallet_positions (.response 200 (.valid v)) =
      match parse_positions v with
      | .error _ => .error PyExc.attributeError
      | .ok ps => .ok ps) ∧
    (∀ v, fetch_wallet_orders (.response 200 (.valid v)) =
      match parse_orders v with
      | .error _ => .error PyExc.attributeError
      | .ok os => .ok os) ∧
    (∀ fields, parse_positions (.obj (("positions", .arr []) :: fields)) = .ok []) ∧
    (∀ fields, parse_orders (.obj (("orders", .arr []) :: fields)) = .ok []) := by
  refine ⟨?_, ?_, fun v => rfl, fun v => rfl, fun fields => rfl, fun fields => rfl⟩
  · intro o
    cases o with
    | netError => simp [fetch_wallet_positions, fetch_json, is_api_err]
    | response s b =>
      by_cases hs : s = 200
      · subst hs
        cases b with
        | invalid => simp [fetch_wallet_positions, fetch_json, is_api_err]
        | valid v =>
          simp only [fetch_wallet_positions, fetch_json]
          cases hp : parse_positions v <;> simp [hp, is_api_err]
      · cases b <;> simp [fetch_wallet_positions, fetch_json, is_api_err, hs]
  · intro o
    cases o with
    | netError => rfl
    | response s b =>
      by_cases hs : s = 200
      · subst hs
        cases b with
        | invalid => rfl
        | valid v =>
          simp only [fetch_wallet_orders, fetch_wallet_positions, fetch_json]
          cases hp : parse_positions v <;> cases ho : parse_orders v <;>
            simp [hp, ho, is_api_err]
      · simp [fetch_wallet_orders, fetch_wallet_positions, fetch_json, hs, is_api_err]

/-- C3.  A dict item whose `market` field holds a truthy non-dict
value (with the question/slug fallback keys absent) raises an uncaught
`AttributeError` that aborts the whole batch — the item after it is
never parsed — so a malformed item *can* cause the whole parse to
raise, contrary to the claim.  The same item alone, with the offending
field absent, parses fine. -/
theorem c3_counterexample_poisoned_item :
    parse_position_items [.obj [("market", .str "x")], .obj [("id", .int 1)]] =
      .error .attributeError ∧
    parse_positions (.obj [("positions",
      .arr [.obj [("market", .str "x")], .obj [("id", .int 1)]])]) =
      .error .attributeError ∧
    parse_orders (.obj [("orders",
      .arr [.obj [("market", .str "x")]])]) = .error .attributeError ∧
    isErr (parse_position_items [.obj [("id", .int 1)]]) = false := by
  refine ⟨rfl, rfl, rfl, by decide⟩

/-- C3 (amended).  In both parsers' item loops, exactly the non-dict
items are dropped, each on its own, with parsing continuing past them;
the dict items are parsed in order, and the parse of the batch equals
the sequenced parse of the dict items — so the first dict item whose
extraction raises `AttributeError` aborts the whole batch. -/
theorem c3_nondict_dropped_dict_parsed :
    ∀ items : List JValue,
      parse_position_items items = (items.filter is_obj).mapM parse_position_item ∧
      parse_order_items items = (items.filter is_obj).mapM parse_order_item := by
  intro items
  induction items with
  | nil => exact ⟨rfl, rfl⟩
  | cons item rest ih =>
    by_cases h : is_obj item = true
    · constructor
      · rw [parse_position_items, if_pos h, List.filter_cons, if_pos h,
          List.mapM_cons, ← ih.1]
        cases parse_position_item item <;> cases parse_position_items rest <;>
          simp [Bind.bind, Except.bind, Pure.pure, Except.pure]
      · rw [parse_order_items, if_pos h, List.filter_cons, if_pos h,
          List.mapM_cons, ← ih.2]
        cases parse_order_item item <;> cases parse_order_items rest <;>
          simp [Bind.bind, Except.bind, Pure.pure, Except.pure]
    · constructor
      · rw [parse_position_items, if_neg h, List.filter_cons, if_neg h, ih.1]
      · rw [parse_order_items, if_neg h, List.filter_cons, if_neg h, ih.2]

/-- C8.  If a prior cache entry exists, a request whose rebuild attempt
fails leaves the stored entry unchanged and answers with that entry as a
successful response (no error surfaced), whatever the entry's age. -/
theorem c8_failed_rebuild_serves_prior_entry :
    ∀ {α : Type} (window now : Int) (d : α) (t : Int),
      cache_request window now (some (d, t)) none = (some (d, t), some d) := by
  intro α window now d t
  simp only [cache_request]
  split <;> rfl

/-- C10.  With `order_id` present but falsy (the empty string) and
`id`/`orderId` absent, the `or`-chain yields `""` and `str` maps it to
`""`, not `"None"`: the parsed `order_id` is not always the string
`"None"` when all three fields are falsy. -/
theorem c10_counterexample_falsy_order_id :
    (parse_order_item (.obj [("order_id", .str "")])).map LimitOrder.order_id = .ok "" ∧
    (parse_order_item (.obj [("order_id", .str "")])).map LimitOrder.order_id ≠
      .ok "None" ∧
    (parse_orders (.obj [("orders", .arr [.obj [("order_id", .str "")]])])).map
      (fun l => l.map LimitOrder.order_id) = .ok [""] := by
  refine ⟨rfl, ?_, rfl⟩
  intro h
  exact absurd (Except.ok.inj h) (by decide)

/-- C10 (amended).  When `id`, `orderId` and `order_id` are all absent
or null, any successfully parsed order's `order_id` is the string
`"None"` (it is a string by construction, never a null); when all three
are falsy but the last holds a non-null falsy value `v`, it is `str(v)`
instead. -/
theorem c10_null_chain_gives_None_string :
    ∀ (item : JValue) (w : LimitOrder),
      isNull (pyGet item "id") = true →
      isNull (pyGet item "orderId") = true →
      isNull (pyGet item "order_id") = true →
      parse_order_item item = .ok w →
      w.order_id = "None" := by
  intro item w h1 h2 h3 hw
  have e1 := eq_null_of_isNull h1
  have e2 := eq_null_of_isNull h2
  have e3 := eq_null_of_isNull h3
  unfold parse_order_item at hw
  split at hw
  · cases hw
  · split at hw
    · cases hw
    · split at hw
      · cases hw
      · cases hw
        simp [chain_get, pyOr, e1, e2, e3, truthy, pyStr]

/-- Witness for C10's amended theorem at the empty dict. -/
theorem c10_null_chain_witness :
    isNull (pyGet (.obj []) "id") = true ∧
    isNull (pyGet (.obj []) "orderId") = true ∧
    isNull (pyGet (.obj []) "order_id") = true ∧
    ∃ w, parse_order_item (.obj []) = .ok w ∧ w.order_id = "None" :=
  ⟨by decide, by decide, by decide,
    ⟨_, rfl, c10_null_chain_gives_None_string (.obj []) _
      (by decide) (by decide) (by decide) rfl⟩⟩

/-- The early-stopping loop never collects more than `cap` records. -/
theorem ingest_loop_length_le :
    ∀ (cutoff : Int) (cap : Nat) (src : List RawPost),
      (ingest_loop cutoff cap src).length ≤ cap := by
  intro cutoff cap src
  induction src generalizing cap with
  | nil => simp [ingest_loop]
  | cons p ps ih =>
    cases cap with
    | zero => simp [ingest_loop]
    | succ k =>
      simp only [ingest_loop]
      cases hp : parse_post p with
      | none => exact ih (k + 1)
      | some r =>
        by_cases ht : r.timestamp < cutoff
        · simp [ht]
        · simpa [ht] using ih k

/-- Every record the early-stopping loop collects passed the cutoff
check, whatever order the source delivered items in. -/
theorem ingest_loop_cutoff :
    ∀ (cutoff : Int) (cap : Nat) (src : List RawPost),
      ∀ r ∈ ingest_loop cutoff cap src, cutoff ≤ r.timestamp := by
  intro cutoff cap src
  induction src generalizing cap with
  | nil => simp [ingest_loop]
  | cons p ps ih =>
    cases cap with
    | zero => simp [ingest_loop]
    | succ k =>
      simp only [ingest_loop]
      cases hp : parse_post p with
      | none => exact ih (k + 1)
      | some r =>
        by_cases ht : r.timestamp < cutoff
        · simp [ht]
        · intro x hx
          rcases (by simpa [ht] using hx : x = r ∨ x ∈ ingest_loop cutoff k ps) with rfl | hx'
          · omega
          · exact ih k x hx'

/-- C7.  For a positive cap, the Ingestion Adapter's fetch returns at
most `cap` records, every returned record's timestamp is at least the
window cutoff, and the result is sorted ascending by timestamp. -/
theorem c7_ingest_cap_cutoff_sorted :
    ∀ (cutoff : Int) (cap : Nat) (src : List RawPost), 0 < cap →
      (ingest_fetch cutoff cap src).length ≤ cap ∧
      (∀ r ∈ ingest_fetch cutoff cap src, cutoff ≤ r.timestamp) ∧
      List.Sorted tsLE (ingest_fetch cutoff cap src) := by
  intro cutoff cap src _
  refine ⟨?_, ?_, ?_⟩
  · rw [ingest_fetch, List.length_insertionSort]
    exact ingest_loop_length_le cutoff cap src
  · intro r hr
    have hr' : r ∈ ingest_loop cutoff cap src :=
      (List.perm_insertionSort tsLE (ingest_loop cutoff cap src)).mem_iff.mp hr
    exact ingest_loop_cutoff cutoff cap src r hr'
  · exact List.sorted_insertionSort tsLE (ingest_loop cutoff cap src)

/-- Witness for C7 at a concrete source stream: cap 2, cutoff 0, three
raw posts delivered newest-first with one unparseable item in between. -/
theorem c7_ingest_witness :
    0 < 2 ∧
    ((ingest_fetch 0 2 [⟨some 1, some 9, "a", some 3, none, none, none⟩,
        ⟨none, none, "bad", none, none, none, none⟩,
        ⟨some 2, some 4, "b", none, none, none, none⟩,
        ⟨some 3, some 1, "c", none, none, none, none⟩]).length ≤ 2 ∧
      (∀ r ∈ ingest_fetch 0 2 [⟨some 1, some 9, "a", some 3, none, none, none⟩,
        ⟨none, none, "bad", none, none, none, none⟩,
        ⟨some 2, some 4, "b", none, none, none, none⟩,
        ⟨some 3, some 1, "c", none, none, none, none⟩], 0 ≤ r.timestamp) ∧
      List.Sorted tsLE (ingest_fetch 0 2 [⟨some 1, some 9, "a", some 3, none, none, none⟩,
        ⟨none, none, "bad", none, none, none, none⟩,
        ⟨some 2, some 4, "b", none, none, none, none⟩,
        ⟨some 3, some 1, "c", none, none, none, none⟩])) :=
  ⟨by decide,
    c7_ingest_cap_cutoff_sorted 0 2 [⟨some 1, some 9, "a", some 3, none, none, none⟩,
      ⟨none, none, "bad", none, none, none, none⟩,
      ⟨some 2, some 4, "b", none, none, none, none⟩,
      ⟨some 3, some 1, "c", none, none, none, none⟩] (by decide)⟩

/-- C4.  With one valid address and an unreachable upstream and no
cached data anywhere in the code, the endpoint answers 200 with a
success payload carrying a per-address error entry — not a structured
error payload, and not a "service unavailable"-class (5xx) status. -/
theorem c4_counterexample_failure_not_503 :
    wallet_snapshot "T" (fun _ => .netError) (fun _ => .netError)
      (.json (.obj [("addresses", .arr [.str "0xaaaaaaaaaaaaaaaaaaaaaaaaaaaaaaaaaaaaaaaa"])])) =
      (200, .ok "T" [⟨"0xaaaaaaaaaaaaaaaaaaaaaaaaaaaaaaaaaaaaaaaa", none, none,
        some "Unable to reach Polymarket API"⟩]) ∧
    ¬(500 ≤ (wallet_snapshot "T" (fun _ => .netError) (fun _ => .netError)
      (.json (.obj [("addresses",
        .arr [.str "0xaaaaaaaaaaaaaaaaaaaaaaaaaaaaaaaaaaaaaaaa"])]))).1) :=
  ⟨rfl, by decide⟩

/-- C4 (amended).  Every response the endpoint's own code produces is
either a 400 (client-error class) with a structured error payload and a
human-readable message — for invalid request bodies and addresses — or
a 200 success payload in which upstream `PolymarketAPIError` failures
are reported per-address; the only 5xx is the bare 500 of an uncaught
`AttributeError` escaping the parser, which carries no structured
payload of the endpoint's making.  No "service unavailable" structured
error response exists. -/
theorem c4_status_trichotomy :
    ∀ (now : String) (po oo : String → FetchOutcome) (body : ReqBody),
      ((wallet_snapshot now po oo body).1 = 400 ∧
        ∃ m, (wallet_snapshot now po oo body).2 = .err m) ∨
      ((wallet_snapshot now po oo body).1 = 200 ∧
        ∃ rs, (wallet_snapshot now po oo body).2 = .ok now rs) ∨
      ((wallet_snapshot now po oo body).1 = 500 ∧
        (wallet_snapshot now po oo body).2 = .crash) := by
  intro now po oo body
  cases body with
  | invalid => exact .inl ⟨rfl, _, rfl⟩
  | json payload =>
    simp only [wallet_snapshot]
    split
    · split
      · exact .inl ⟨rfl, _, rfl⟩
      · split
        · exact .inl ⟨rfl, _, rfl⟩
        · split
          · exact .inr (.inl ⟨rfl, _, rfl⟩)
          · exact .inr (.inr ⟨rfl, rfl⟩)
    · exact .inl ⟨rfl, _, rfl⟩

/-- If every address's entry builds without an uncaught exception, the
wallet loop succeeds and pairs each address, in order, with the entry
built from its own fetches. -/
theorem wallet_results_ok :
    ∀ (po oo : String → FetchOutcome) (l : List String),
      (∀ a ∈ l, isErr (build_wallet_entry po oo a) = false) →
      ∃ rs, wallet_results po oo l = .ok rs ∧
        List.Forall₂ (fun a w => build_wallet_entry po oo a = .ok w) l rs := by
  intro po oo l
  induction l with
  | nil => exact fun _ => ⟨[], rfl, .nil⟩
  | cons a rest ih =>
    intro h
    cases hb : build_wallet_entry po oo a with
    | error e =>
      have := h a (List.mem_cons_self _ _)
      rw [hb] at this
      cases this
    | ok w =>
      obtain ⟨rs, hrs, hf⟩ := ih (fun x hx => h x (List.mem_cons_of_mem _ hx))
      refine ⟨w :: rs, ?_, .cons hb hf⟩
      rw [wallet_results, hb, hrs]

/-- C9.  The per-address isolation fails as claimed: with address A
failing transport (a genuine upstream API failure) and sibling address
B answering 200 with a payload whose item has a truthy non-dict
`market`, the whole request dies on the uncaught `AttributeError` —
a bare 500 with no result entries at all, rather than a success with
the error confined to A's entry. -/
theorem c9_counterexample_sibling_crash :
    wallet_snapshot "T"
      (fun a => if a = "0xaaaaaaaaaaaaaaaaaaaaaaaaaaaaaaaaaaaaaaaa" then .netError
        else .response 200 (.valid (.obj [("positions",
          .arr [.obj [("market", .str "x")]])])))
      (fun _ => .response 200 (.valid (.obj [("orders", .arr [])])))
      (.json (.obj [("addresses", .arr [.str "0xaaaaaaaaaaaaaaaaaaaaaaaaaaaaaaaaaaaaaaaa",
        .str "0xbbbbbbbbbbbbbbbbbbbbbbbbbbbbbbbbbbbbbbbb"])])) = (500, .crash) ∧
    is_api_err (fetch_wallet_positions .netError) = true :=
  ⟨rfl, rfl⟩

/-- C9 (amended).  When the submitted addresses normalize to a
non-empty list and no address's fetches raise an uncaught
`AttributeError`, the endpoint answers 200 with exactly one result
entry per normalized address, in the normalized order, each entry
computed from its own address's fetches alone; an upstream
`PolymarketAPIError` for an address puts an `error` field in that
address's entry only, and two successful fetches produce an entry with
data and no error.  (An `AttributeError` for any address instead
crashes the whole request.) -/
theorem c9_isolation_without_poison :
    ∀ (now : String) (po oo : String → FetchOutcome) (addrs : List JValue) (norm : List String),
      normalize_addresses addrs = .ok norm → norm ≠ [] →
      (∀ a ∈ norm, isErr (build_wallet_entry po oo a) = false) →
      (∃ rs, wallet_snapshot now po oo (.json (.obj [("addresses", .arr addrs)])) =
          (200, .ok now rs) ∧
        List.Forall₂ (fun a w => build_wallet_entry po oo a = .ok w) norm rs) ∧
      (∀ a w, build_wallet_entry po oo a = .ok w → w.address = a) ∧
      (∀ a e, fetch_wallet_positions (po a) = .error (.apiError e) →
        build_wallet_entry po oo a = .ok ⟨a, none, none, some e⟩) ∧
      (∀ a ps os, fetch_wallet_positions (po a) = .ok ps →
        fetch_wallet_orders (oo a) = .ok os →
        build_wallet_entry po oo a = .ok ⟨a, some ps, some os, none⟩) := by
  intro now po oo addrs norm hnorm hne hok
  refine ⟨?_, ?_, ?_, ?_⟩
  · obtain ⟨rs, hrs, hf⟩ := wallet_results_ok po oo norm hok
    refine ⟨rs, ?_, hf⟩
    have hget : dictGet [("addresses", JValue.arr addrs)] "addresses" = .arr addrs := rfl
    simp only [wallet_snapshot, hget, hnorm]
    simp [List.isEmpty_iff, hne, hrs]
  · intro a w hw
    unfold build_wallet_entry at hw
    split at hw
    · cases hw; rfl
    · cases hw
    · split at hw
      · cases hw; rfl
      · cases hw
      · cases hw; rfl
  · intro a e he
    unfold build_wallet_entry
    rw [he]
  · intro a ps os hp ho
    unfold build_wallet_entry
    rw [hp, ho]

/-- Witness for C9's amended isolation: two addresses, the first with
an unreachable upstream, the second fetching empty lists successfully. -/
theorem c9_isolation_witness :
    ∃ rs,
      wallet_snapshot "T"
        (fun a => if a = "0xaaaaaaaaaaaaaaaaaaaaaaaaaaaaaaaaaaaaaaaa" then .netError
          else .response 200 (.valid (.obj [("positions", .arr [])])))
        (fun _ => .response 200 (.valid (.obj [("orders", .arr [])])))
        (.json (.obj [("addresses", .arr [.str "0xaaaaaaaaaaaaaaaaaaaaaaaaaaaaaaaaaaaaaaaa",
          .str "0xbbbbbbbbbbbbbbbbbbbbbbbbbbbbbbbbbbbbbbbb"])])) =
        (200, .ok "T" rs) ∧
      List.Forall₂ (fun a w =>
        build_wallet_entry
          (fun a2 => if a2 = "0xaaaaaaaaaaaaaaaaaaaaaaaaaaaaaaaaaaaaaaaa" then .netError
            else .response 200 (.valid (.obj [("positions", .arr [])])))
          (fun _ => .response 200 (.valid (.obj [("orders", .arr [])]))) a = .ok w)
        ["0xaaaaaaaaaaaaaaaaaaaaaaaaaaaaaaaaaaaaaaaa",
          "0xbbbbbbbbbbbbbbbbbbbbbbbbbbbbbbbbbbbbbbbb"] rs :=
  (c9_isolation_without_poison "T"
    (fun a => if a = "0xaaaaaaaaaaaaaaaaaaaaaaaaaaaaaaaaaaaaaaaa" then .netError
      else .response 200 (.valid (.obj [("positions", .arr [])])))
    (fun _ => .response 200 (.valid (.obj [("orders", .arr [])])))
    [.str "0xaaaaaaaaaaaaaaaaaaaaaaaaaaaaaaaaaaaaaaaa",
      .str "0xbbbbbbbbbbbbbbbbbbbbbbbbbbbbbbbbbbbbbbbb"]
    ["0xaaaaaaaaaaaaaaaaaaaaaaaaaaaaaaaaaaaaaaaa",
      "0xbbbbbbbbbbbbbbbbbbbbbbbbbbbbbbbbbbbbbbbb"]
    rfl (by decide) (by decide)).1

/-- An input entry that makes `normalize_addresses` raise: a string
whose stripped form is non-empty but fails the address pattern after
lowercasing. -/
def bad_entry : JValue → Bool
  | .str s => (pyStrip s != "") && !address_re_match (pyLower (pyStrip s))
  | _ => false

/-- Everything `dedup_first` returns occurs in its input. -/
theorem mem_dedup_first : ∀ (l : List String) (c : String), c ∈ dedup_first l → c ∈ l := by
  intro l
  induction l using dedup_first.induct with
  | case1 => simp [dedup_first]
  | case2 x xs ih =>
    intro c hc
    rw [dedup_first] at hc
    rcases List.mem_cons.mp hc with rfl | h
    · exact List.mem_cons_self _ _
    · exact List.mem_cons_of_mem _ (List.mem_of_mem_filter (ih c h))

/-- `dedup_first` returns distinct elements. -/
theorem nodup_dedup_first : ∀ l : List String, (dedup_first l).Nodup := by
  intro l
  induction l using dedup_first.induct with
  | case1 => simp [dedup_first]
  | case2 x xs ih =>
    rw [dedup_first]
    refine List.nodup_cons.mpr ⟨?_, ih⟩
    intro hx
    have hm := List.mem_filter.mp (mem_dedup_first _ _ hx)
    simp at hm

/-- Loop invariant of `normalize_addresses`: an error surfaces exactly
when some entry is bad (independent of the `seen` set, because the
pattern check precedes the dedup check), and a successful run returns
the first-occurrence deduplication of the candidates not yet seen. -/
theorem normalize_addresses_go_spec :
    ∀ (addrs : List JValue) (seen : List String),
      isErr (normalize_addresses_go seen addrs) = addrs.any bad_entry ∧
      (∀ out, normalize_addresses_go seen addrs = .ok out →
        out = dedup_first ((address_candidates addrs).filter (fun c => !seen.contains c))) := by
  intro addrs
  induction addrs with
  | nil =>
    intro seen
    refine ⟨rfl, ?_⟩
    intro out h
    cases h
    simp [address_candidates, dedup_first]
  | cons raw rest ih =>
    intro seen
    cases raw
    case str s =>
      by_cases h0 : pyStrip s = ""
      · have hgo : normalize_addresses_go seen (.str s :: rest) =
            normalize_addresses_go seen rest := by
          simp [normalize_addresses_go, h0]
        have hcand : address_candidates (.str s :: rest) = address_candidates rest := by
          simp [address_candidates, List.filterMap_cons, h0]
        refine ⟨?_, ?_⟩
        · rw [hgo, (ih seen).1]
          simp [bad_entry, h0]
        · intro out hout
          rw [hgo] at hout
          rw [(ih seen).2 out hout, hcand]
      · have hcand : address_candidates (.str s :: rest) =
            pyLower (pyStrip s) :: address_candidates rest := by
          simp [address_candidates, List.filterMap_cons, h0]
        by_cases hm : address_re_match (pyLower (pyStrip s)) = false
        · have hgo : normalize_addresses_go seen (.str s :: rest) =
              .error ("Invalid Polygon wallet address: " ++ s) := by
            simp [normalize_addresses_go, h0, hm]
          refine ⟨?_, ?_⟩
          · rw [hgo]
            simp [isErr, List.any_cons, bad_entry, h0, hm]
          · intro out hout
            rw [hgo] at hout
            cases hout
        · rw [Bool.not_eq_false] at hm
          have hbad : bad_entry (.str s) = false := by
            simp [bad_entry, h0, hm]
          by_cases hseen : pyLower (pyStrip s) ∈ seen
          · have hgo : normalize_addresses_go seen (.str s :: rest) =
                normalize_addresses_go seen rest := by
              simp [normalize_addresses_go, h0, hm, hseen]
            refine ⟨?_, ?_⟩
            · rw [hgo, (ih seen).1]
              simp [List.any_cons, hbad]
            · intro out hout
              rw [hgo] at hout
              rw [(ih seen).2 out hout, hcand]
              congr 1
              rw [List.filter_cons]
              simp [hseen]
          · have hgo : normalize_addresses_go seen (.str s :: rest) =
                (normalize_addresses_go (pyLower (pyStrip s) :: seen) rest).map
                  (fun out => pyLower (pyStrip s) :: out) := by
              simp [normalize_addresses_go, h0, hm, hseen]
            refine ⟨?_, ?_⟩
            · rw [hgo, isErr_map, (ih _).1]
              simp [List.any_cons, hbad]
            · intro out hout
              rw [hgo] at hout
              cases hrec : normalize_addresses_go (pyLower (pyStrip s) :: seen) rest with
              | error e => rw [hrec] at hout; cases hout
              | ok out' =>
                rw [hrec] at hout
                cases hout
                have hstep : List.filter (fun x => !seen.contains x)
                    (pyLower (pyStrip s) :: address_candidates rest) =
                    pyLower (pyStrip s) ::
                      List.filter (fun x => !seen.contains x) (address_candidates rest) := by
                  rw [List.filter_cons]
                  simp [hseen]
                rw [(ih _).2 out' hrec, hcand, hstep, dedup_first]
                congr 1
                rw [List.filter_filter]
                congr 1
                refine List.filter_congr ?_
                intro y _
                by_cases hy : y = pyLower (pyStrip s)
                · subst hy
                  simp
                · simp [hy, Ne.symm hy]
    all_goals
      exact ⟨by simpa [normalize_addresses_go, List.any_cons, bad_entry] using (ih seen).1,
        fun out hout => by
          have h2 := (ih seen).2 out (by simpa [normalize_addresses_go] using hout)
          simpa [address_candidates, List.filterMap_cons] using h2⟩

/-- C5.  `normalize_addresses` raises `ValueError` exactly when some
entry is a string that strips to a non-empty candidate failing the
address pattern (after lowercasing, which is how the code applies the
pattern); on success it returns exactly the distinct lowercased stripped
candidates in order of first occurrence — non-string and
empty/whitespace-only entries silently skipped — and every returned
entry matches the address pattern. -/
theorem c5_normalize_addresses_characterisation :
    ∀ addrs : List JValue,
      (isErr (normalize_addresses addrs) = true ↔
        ∃ s, JValue.str s ∈ addrs ∧ pyStrip s ≠ "" ∧
          address_re_match (pyLower (pyStrip s)) = false) ∧
      (∀ out, normalize_addresses addrs = .ok out →
        out = dedup_first (address_candidates addrs) ∧ out.Nodup ∧
        ∀ c ∈ out, address_re_match c = true) := by
  intro addrs
  have h := normalize_addresses_go_spec addrs []
  constructor
  · rw [normalize_addresses, h.1, List.any_eq_true]
    constructor
    · rintro ⟨v, hv, hb⟩
      cases v with
      | str s =>
        simp [bad_entry] at hb
        exact ⟨s, hv, hb.1, hb.2⟩
      | null => simp [bad_entry] at hb
      | bool b => simp [bad_entry] at hb
      | int n => simp [bad_entry] at hb
      | float q => simp [bad_entry] at hb
      | arr xs => simp [bad_entry] at hb
      | obj fs => simp [bad_entry] at hb
    · rintro ⟨s, hs, h1, h2⟩
      exact ⟨.str s, hs, by simp [bad_entry, h1, h2]⟩
  · intro out hout
    have h2 := h.2 out hout
    have h2' : out = dedup_first (address_candidates addrs) := by
      simpa using h2
    refine ⟨h2', h2' ▸ nodup_dedup_first _, ?_⟩
    intro c hc
    rw [h2'] at hc
    have hcand := mem_dedup_first _ _ hc
    obtain ⟨v, hv, hf⟩ := List.mem_filterMap.mp hcand
    have herr : isErr (normalize_addresses addrs) = false := by
      rw [hout]; rfl
    rw [normalize_addresses, h.1] at herr
    have hbadv : bad_entry v = false :=
      Bool.not_eq_true _ ▸ Bool.of_not_eq_true (List.any_eq_false.mp herr v hv)
    cases v with
    | str s =>
      by_cases h0 : pyStrip s = ""
      · simp [h0] at hf
      · have hc' : pyLower (pyStrip s) = c := by
          simpa [h0] using hf
        rw [← hc']
        simp [bad_entry, h0] at hbadv
        exact hbadv
    | null => simp at hf
    | bool b => simp at hf
    | int n => simp at hf
    | float q => simp at hf
    | arr xs => simp at hf
    | obj fs => simp at hf

/-- Witness for C5's success characterisation on a concrete input with
leading/trailing whitespace, mixed case, a non-string entry, a
whitespace-only entry and a duplicate-after-lowercasing entry. -/
theorem c5_normalize_addresses_witness :
    ["0xabcdefabcdef0123456789abcdefabcdef012345"] =
      dedup_first (address_candidates
        [.str " 0xABCDEFabcdef0123456789ABCDEFabcdef012345 ", .int 7, .str "  ",
          .str "0xabcdefabcdef0123456789abcdefabcdef012345"]) ∧
    (["0xabcdefabcdef0123456789abcdefabcdef012345"] : List String).Nodup ∧
    (∀ c ∈ ["0xabcdefabcdef0123456789abcdefabcdef012345"], address_re_match c = true) :=
  (c5_normalize_addresses_characterisation
    [.str " 0xABCDEFabcdef0123456789ABCDEFabcdef012345 ", .int 7, .str "  ",
      .str "0xabcdefabcdef0123456789abcdefabcdef012345"]).2
    ["0xabcdefabcdef0123456789abcdefabcdef012345"] rfl

/-- Whether some suffix of the text satisfies the window predicate `p`:
`p` sees, at each position, the whole remaining text. -/
def hasWin (p : List Char → Bool) : List Char → Bool
  | [] => false
  | c :: cs => p (c :: cs) || hasWin p cs

/-- A text that starts with a URL start starts with the literal `http`. -/
theorem httpHead_shape {l : List Char} (h : httpHead l = true) :
    ∃ t, l = 'h' :: 't' :: 't' :: 'p' :: t := by
  match l with
  | [] => simp [httpHead] at h
  | [c1] => simp [httpHead] at h
  | [c1, c2] => simp [httpHead] at h
  | [c1, c2, c3] => simp [httpHead] at h
  | c1 :: c2 :: c3 :: c4 :: t =>
    simp only [httpHead, Bool.and_eq_true, beq_iff_eq] at h
    obtain ⟨⟨⟨e1, e2⟩, e3⟩, e4⟩ := h
    subst e1; subst e2; subst e3; subst e4
    exact ⟨t, rfl⟩

/-- A text that starts with a mention starts with `@` and a word
character. -/
theorem mentionHead_shape {l : List Char} (h : mentionHead l = true) :
    ∃ c2 t, l = '@' :: c2 :: t ∧ wordChar c2 = true := by
  match l with
  | [] => simp [mentionHead] at h
  | [c1] => simp [mentionHead] at h
  | c1 :: c2 :: t =>
    simp [mentionHead] at h
    exact ⟨c2, t, by rw [h.1], h.2⟩

/-- `httpHead` only looks at a prefix: appending preserves it. -/
theorem httpHead_append {l r : List Char} (h : httpHead l = true) :
    httpHead (l ++ r) = true := by
  obtain ⟨t, rfl⟩ := httpHead_shape h
  simp [httpHead]

/-- `mentionHead` only looks at a prefix: appending preserves it. -/
theorem mentionHead_append {l r : List Char} (h : mentionHead l = true) :
    mentionHead (l ++ r) = true := by
  obtain ⟨c2, t, rfl, hw⟩ := mentionHead_shape h
  simp [mentionHead, hw]

/-- A window further right stays a window of the longer text. -/
theorem hasWin_append_right (p : List Char → Bool) :
    ∀ (a b : List Char), hasWin p b = true → hasWin p (a ++ b) = true := by
  intro a b hb
  induction a with
  | nil => simpa using hb
  | cons c a' ih => simp [hasWin, ih]

/-- For prefix-monotone window predicates, a window of a prefix stays a
window of the longer text. -/
theorem hasWin_append_left {p : List Char → Bool}
    (hmono : ∀ l r, p l = true → p (l ++ r) = true) :
    ∀ (t b : List Char), hasWin p t = true → hasWin p (t ++ b) = true := by
  intro t b ht
  induction t with
  | nil => simp [hasWin] at ht
  | cons c t' ih =>
    rw [hasWin, Bool.or_eq_true] at ht
    simp only [List.cons_append, hasWin, List.append_eq]
    rcases ht with hh | ht'
    · have hm := hmono (c :: t') b hh
      rw [List.cons_append] at hm
      rw [hm, Bool.true_or]
    · rw [ih ht', Bool.or_true]

/-- If the whole text has no `p`-window, neither has its tail. -/
theorem hasWin_cons_false {p : List Char → Bool} {c : Char} {l : List Char}
    (h : hasWin p (c :: l) = false) : hasWin p l = false := by
  rw [hasWin, Bool.or_eq_false_iff] at h
  exact h.2

/-- If the whole text has no `p`-window, neither has a `dropWhile`
suffix of it. -/
theorem hasWin_dropWhile_false {p : List Char → Bool} {q : Char → Bool} {l : List Char}
    (h : hasWin p l = false) : hasWin p (l.dropWhile q) = false := by
  obtain ⟨pre, hpre⟩ := List.dropWhile_suffix q (l := l)
  by_contra hcon
  rw [Bool.not_eq_false] at hcon
  have := hasWin_append_right p pre _ hcon
  rw [hpre, h] at this
  cases this

/-- Head of a `dropWhile notWsC` result is whitespace (or the list is
empty). -/
theorem headWs_dropWhile_notWs :
    ∀ l : List Char, ∀ c, (l.dropWhile notWsC).head? = some c → c.isWhitespace = true := by
  intro l
  induction l with
  | nil => intro c h; cases h
  | cons d ds ih =>
    intro c h
    by_cases hd : notWsC d = true
    · rw [List.dropWhile_cons_of_pos hd] at h
      exact ih c h
    · rw [List.dropWhile_cons_of_neg hd] at h
      cases h
      simpa [notWsC] using hd

/-- Head of a `dropWhile wordChar` result is a non-word character (or
the list is empty). -/
theorem headNW_dropWhile_word :
    ∀ l : List Char, ∀ c, (l.dropWhile wordChar).head? = some c → wordChar c = false := by
  intro l
  induction l with
  | nil => intro c h; cases h
  | cons d ds ih =>
    intro c h
    by_cases hd : wordChar d = true
    · rw [List.dropWhile_cons_of_pos hd] at h
      exact ih c h
    · rw [List.dropWhile_cons_of_neg hd] at h
      cases h
      simpa using hd

/-- `strip_urls` keeps a whitespace head: if every head of the input is
whitespace, so is every head of the output. -/
theorem headWs_strip_urls :
    ∀ l : List Char, (∀ c, l.head? = some c → c.isWhitespace = true) →
      ∀ c, (strip_urls l).head? = some c → c.isWhitespace = true := by
  intro l
  induction l using strip_urls.induct with
  | case1 => intro _ c h; rw [strip_urls] at h; cases h
  | case2 c cs h ih =>
    intro hl cx _
    obtain ⟨t, ht⟩ := httpHead_shape h
    have hc := hl c rfl
    have hch : c = 'h' := by
      have := congrArg List.head? ht
      simpa using this
    rw [hch] at hc
    simp at hc
  | case3 c cs h ih =>
    intro hl cx h'
    rw [strip_urls, if_neg h] at h'
    cases h'
    exact hl c rfl

/-- A non-empty, whitespace-free prefix of `strip_urls l` is a prefix
of `l` itself: removal only deletes text and the char after a deleted
run is whitespace, so surviving non-whitespace prefixes are original. -/
theorem strip_urls_pref :
    ∀ l : List Char, ∀ t r, t ≠ [] → (∀ c ∈ t, notWsC c = true) →
      strip_urls l = t ++ r → ∃ r2, l = t ++ r2 := by
  intro l
  induction l using strip_urls.induct with
  | case1 =>
    intro t r hne _ heq
    rw [strip_urls] at heq
    exact absurd (List.append_eq_nil.mp heq.symm).1 hne
  | case2 c cs h ih =>
    intro t r hne hall heq
    rw [strip_urls, if_pos h] at heq
    cases t with
    | nil => exact absurd rfl hne
    | cons t0 t'' =>
      have hhead : (strip_urls (cs.dropWhile notWsC)).head? = some t0 := by
        rw [heq]; rfl
      have hws := headWs_strip_urls (cs.dropWhile notWsC)
        (headWs_dropWhile_notWs cs) t0 hhead
      have := hall t0 (List.mem_cons_self _ _)
      rw [notWsC, hws] at this
      cases this
  | case3 c cs h ih =>
    intro t r hne hall heq
    rw [strip_urls, if_neg h] at heq
    cases t with
    | nil => exact absurd rfl hne
    | cons t0 t'' =>
      rw [List.cons_append] at heq
      injection heq with h1 h2
      cases t'' with
      | nil => exact ⟨cs, by rw [h1]; rfl⟩
      | cons u us =>
        obtain ⟨r2, hr2⟩ := ih (u :: us) r (by simp)
          (fun x hx => hall x (List.mem_cons_of_mem _ hx)) h2
        exact ⟨r2, by rw [h1, List.cons_append, hr2]⟩

/-- After `strip_urls`, no URL start remains anywhere in the text. -/
theorem no_http_strip_urls : ∀ l : List Char, hasWin httpHead (strip_urls l) = false := by
  intro l
  induction l using strip_urls.induct with
  | case1 => rw [strip_urls]; rfl
  | case2 c cs h ih => rw [strip_urls, if_pos h]; exact ih
  | case3 c cs h ih =>
    rw [strip_urls, if_neg h, hasWin, ih, Bool.or_false]
    by_cases hh : httpHead (c :: strip_urls cs) = true
    · exfalso
      obtain ⟨t, ht⟩ := httpHead_shape hh
      injection ht with h1 h2
      obtain ⟨r2, hr2⟩ := strip_urls_pref cs ['t', 't', 'p'] t (by simp)
        (by intro x hx; fin_cases hx <;> decide) h2
      rw [h1, hr2] at h
      simp [httpHead] at h
    · simpa using hh

/-- `strip_mentions` keeps a non-word head: if every head of the input
is a non-word character, so is every head of the output. -/
theorem headNW_strip_mentions :
    ∀ l : List Char, (∀ c, l.head? = some c → wordChar c = false) →
      ∀ c, (strip_mentions l).head? = some c → wordChar c = false := by
  intro l
  induction l using strip_mentions.induct with
  | case1 => intro _ c h; rw [strip_mentions] at h; cases h
  | case2 c cs h ih =>
    intro _ cx hx
    rw [strip_mentions, if_pos h] at hx
    exact ih (headNW_dropWhile_word cs) cx hx
  | case3 c cs h ih =>
    intro hl cx h'
    rw [strip_mentions, if_neg h] at h'
    cases h'
    exact hl c rfl

/-- A non-empty, all-word-character prefix of `strip_mentions l` is a
prefix of `l` itself. -/
theorem strip_mentions_pref :
    ∀ l : List Char, ∀ t r, t ≠ [] → (∀ c ∈ t, wordChar c = true) →
      strip_mentions l = t ++ r → ∃ r2, l = t ++ r2 := by
  intro l
  induction l using strip_mentions.induct with
  | case1 =>
    intro t r hne _ heq
    rw [strip_mentions] at heq
    exact absurd (List.append_eq_nil.mp heq.symm).1 hne
  | case2 c cs h ih =>
    intro t r hne hall heq
    rw [strip_mentions, if_pos h] at heq
    cases t with
    | nil => exact absurd rfl hne
    | cons t0 t'' =>
      have hhead : (strip_mentions (cs.dropWhile wordChar)).head? = some t0 := by
        rw [heq]; rfl
      have hnw := headNW_strip_mentions (cs.dropWhile wordChar)
        (headNW_dropWhile_word cs) t0 hhead
      have := hall t0 (List.mem_cons_self _ _)
      rw [hnw] at this
      cases this
  | case3 c cs h ih =>
    intro t r hne hall heq
    rw [strip_mentions, if_neg h] at heq
    cases t with
    | nil => exact absurd rfl hne
    | cons t0 t'' =>
      rw [List.cons_append] at heq
      injection heq with h1 h2
      cases t'' with
      | nil => exact ⟨cs, by rw [h1]; rfl⟩
      | cons u us =>
        obtain ⟨r2, hr2⟩ := ih (u :: us) r (by simp)
          (fun x hx => hall x (List.mem_cons_of_mem _ hx)) h2
        exact ⟨r2, by rw [h1, List.cons_append, hr2]⟩

/-- After `strip_mentions`, no mention remains anywhere in the text. -/
theorem no_mention_strip_mentions :
    ∀ l : List Char, hasWin mentionHead (strip_mentions l) = false := by
  intro l
  induction l using strip_mentions.induct with
  | case1 => rw [strip_mentions]; rfl
  | case2 c cs h ih => rw [strip_mentions, if_pos h]; exact ih
  | case3 c cs h ih =>
    rw [strip_mentions, if_neg h, hasWin, ih, Bool.or_false]
    by_cases hh : mentionHead (c :: strip_mentions cs) = true
    · exfalso
      obtain ⟨c2, t, ht, hw⟩ := mentionHead_shape hh
      injection ht with h1 h2
      obtain ⟨r2, hr2⟩ := strip_mentions_pref cs [c2] t (by simp)
        (by intro x hx; rw [List.mem_singleton.mp hx]; exact hw) h2
      rw [h1, hr2] at h
      simp [mentionHead, hw] at h
    · simpa using hh

/-- `strip_mentions` creates no URL start: the character after a
removed mention is a non-word character and so cannot extend a
surviving `htt` into `http`. -/
theorem no_http_strip_mentions :
    ∀ l : List Char, hasWin httpHead l = false →
      hasWin httpHead (strip_mentions l) = false := by
  intro l
  induction l using strip_mentions.induct with
  | case1 => intro _; rw [strip_mentions]; rfl
  | case2 c cs h ih =>
    intro hl
    rw [strip_mentions, if_pos h]
    exact ih (hasWin_dropWhile_false (hasWin_cons_false hl))
  | case3 c cs h ih =>
    intro hl
    rw [strip_mentions, if_neg h, hasWin, ih (hasWin_cons_false hl), Bool.or_false]
    by_cases hh : httpHead (c :: strip_mentions cs) = true
    · exfalso
      obtain ⟨t, ht⟩ := httpHead_shape hh
      injection ht with h1 h2
      obtain ⟨r2, hr2⟩ := strip_mentions_pref cs ['t', 't', 'p'] t (by simp)
        (by intro x hx; fin_cases hx <;> decide) h2
      rw [hasWin, Bool.or_eq_false_iff] at hl
      rw [h1, hr2] at hl
      simp [httpHead] at hl
    · simpa using hh

/-- Characters surviving `strip_urls` come from the input. -/
theorem mem_strip_urls : ∀ (l : List Char) (c : Char), c ∈ strip_urls l → c ∈ l := by
  intro l
  induction l using strip_urls.induct with
  | case1 => intro c h; rw [strip_urls] at h; cases h
  | case2 c cs h ih =>
    intro x hx
    rw [strip_urls, if_pos h] at hx
    obtain ⟨pre, hpre⟩ := List.dropWhile_suffix notWsC (l := cs)
    have : x ∈ pre ++ cs.dropWhile notWsC := List.mem_append_right pre (ih x hx)
    rw [hpre] at this
    exact List.mem_cons_of_mem _ this
  | case3 c cs h ih =>
    intro x hx
    rw [strip_urls, if_neg h] at hx
    rcases List.mem_cons.mp hx with rfl | hx'
    · exact List.mem_cons_self _ _
    · exact List.mem_cons_of_mem _ (ih x hx')

/-- Characters surviving `strip_mentions` come from the input. -/
theorem mem_strip_mentions : ∀ (l : List Char) (c : Char), c ∈ strip_mentions l → c ∈ l := by
  intro l
  induction l using strip_mentions.induct with
  | case1 => intro c h; rw [strip_mentions] at h; cases h
  | case2 c cs h ih =>
    intro x hx
    rw [strip_mentions, if_pos h] at hx
    obtain ⟨pre, hpre⟩ := List.dropWhile_suffix wordChar (l := cs)
    have : x ∈ pre ++ cs.dropWhile wordChar := List.mem_append_right pre (ih x hx)
    rw [hpre] at this
    exact List.mem_cons_of_mem _ this
  | case3 c cs h ih =>
    intro x hx
    rw [strip_mentions, if_neg h] at hx
    rcases List.mem_cons.mp hx with rfl | hx'
    · exact List.mem_cons_self _ _
    · exact List.mem_cons_of_mem _ (ih x hx')

/-- Every word produced by `words_of` is non-empty and whitespace-free. -/
theorem words_of_wsfree :
    ∀ l : List Char, ∀ w ∈ words_of l, w ≠ [] ∧ ∀ c ∈ w, notWsC c = true := by
  intro l
  induction l using words_of.induct with
  | case1 => intro w hw; rw [words_of] at hw; cases hw
  | case2 c cs h ih =>
    intro w hw
    rw [words_of, if_pos h] at hw
    exact ih w hw
  | case3 c cs h ih =>
    intro w hw
    rw [words_of, if_neg h] at hw
    rcases List.mem_cons.mp hw with rfl | hw'
    · refine ⟨by simp, ?_⟩
      intro x hx
      rcases List.mem_cons.mp hx with rfl | hx'
      · simpa [notWsC] using h
      · exact List.mem_takeWhile_imp hx'
    · exact ih w hw'

/-- Every word's characters come from the input text. -/
theorem words_of_chars :
    ∀ l : List Char, ∀ w ∈ words_of l, ∀ c ∈ w, c ∈ l := by
  intro l
  induction l using words_of.induct with
  | case1 => intro w hw; rw [words_of] at hw; cases hw
  | case2 c cs h ih =>
    intro w hw x hx
    rw [words_of, if_pos h] at hw
    exact List.mem_cons_of_mem _ (ih w hw x hx)
  | case3 c cs h ih =>
    intro w hw x hx
    rw [words_of, if_neg h] at hw
    rcases List.mem_cons.mp hw with rfl | hw'
    · rcases List.mem_cons.mp hx with rfl | hx'
      · exact List.mem_cons_self _ _
      · have : x ∈ cs.takeWhile notWsC ++ cs.dropWhile notWsC :=
          List.mem_append_left _ hx'
        rw [List.takeWhile_append_dropWhile] at this
        exact List.mem_cons_of_mem _ this
    · obtain ⟨pre, hpre⟩ := List.dropWhile_suffix notWsC (l := cs)
      have : x ∈ pre ++ cs.dropWhile notWsC :=
        List.mem_append_right pre (ih w hw' x hx)
      rw [hpre] at this
      exact List.mem_cons_of_mem _ this

/-- If the text has no `p`-window, none of its words has one, for
prefix-monotone `p`. -/
theorem words_of_no_win {p : List Char → Bool}
    (hmono : ∀ l r, p l = true → p (l ++ r) = true) :
    ∀ l : List Char, hasWin p l = false → ∀ w ∈ words_of l, hasWin p w = false := by
  intro l
  induction l using words_of.induct with
  | case1 => intro _ w hw; rw [words_of] at hw; cases hw
  | case2 c cs h ih =>
    intro hl w hw
    rw [words_of, if_pos h] at hw
    exact ih (hasWin_cons_false hl) w hw
  | case3 c cs h ih =>
    intro hl w hw
    rw [words_of, if_neg h] at hw
    rcases List.mem_cons.mp hw with rfl | hw'
    · by_contra hcon
      rw [Bool.not_eq_false] at hcon
      have hbig := hasWin_append_left hmono _ (cs.dropWhile notWsC) hcon
      rw [List.cons_append, List.takeWhile_append_dropWhile] at hbig
      rw [hbig] at hl
      cases hl
    · exact ih (hasWin_dropWhile_false (hasWin_cons_false hl)) w hw'

/-- No URL start can straddle the single space separating two
URL-start-free pieces. -/
theorem no_http_cross :
    ∀ (a b : List Char), hasWin httpHead a = false → hasWin httpHead b = false →
      hasWin httpHead (a ++ ' ' :: b) = false := by
  intro a
  induction a with
  | nil =>
    intro b _ hb
    rw [List.nil_append, hasWin, hb, Bool.or_false]
    by_cases hh : httpHead (' ' :: b) = true
    · obtain ⟨t, ht⟩ := httpHead_shape hh
      injection ht with h1 _
      exact absurd h1 (by decide)
    · simpa using hh
  | cons c a' ih =>
    intro b ha hb
    rw [List.cons_append, hasWin, ih b (hasWin_cons_false ha) hb, Bool.or_false]
    by_cases hh : httpHead (c :: (a' ++ ' ' :: b)) = true
    · exfalso
      obtain ⟨t, ht⟩ := httpHead_shape hh
      injection ht with h1 h2
      rcases a' with _ | ⟨x, _ | ⟨y, _ | ⟨z, a''⟩⟩⟩
      · rw [List.nil_append] at h2
        injection h2 with e1 _
        exact absurd e1 (by decide)
      · rw [List.cons_append, List.nil_append] at h2
        injection h2 with e1 h3
        injection h3 with e2 _
        exact absurd e2 (by decide)
      · rw [List.cons_append, List.cons_append, List.nil_append] at h2
        injection h2 with e1 h3
        injection h3 with e2 h4
        injection h4 with e3 _
        exact absurd e3 (by decide)
      · rw [List.cons_append, List.cons_append, List.cons_append] at h2
        injection h2 with e1 h3
        injection h3 with e2 h4
        injection h4 with e3 _
        rw [hasWin, Bool.or_eq_false_iff] at ha
        have : httpHead (c :: x :: y :: z :: a'') = true := by
          rw [h1, e1, e2, e3]
          simp [httpHead]
        rw [this] at ha
        cases ha.1
    · simpa using hh

/-- No mention can straddle the single space separating two
mention-free pieces. -/
theorem no_mention_cross :
    ∀ (a b : List Char), hasWin mentionHead a = false → hasWin mentionHead b = false →
      hasWin mentionHead (a ++ ' ' :: b) = false := by
  intro a
  induction a with
  | nil =>
    intro b _ hb
    rw [List.nil_append, hasWin, hb, Bool.or_false]
    by_cases hh : mentionHead (' ' :: b) = true
    · obtain ⟨c2, t, ht, hw⟩ := mentionHead_shape hh
      injection ht with h1 _
      exact absurd h1 (by decide)
    · simpa using hh
  | cons c a' ih =>
    intro b ha hb
    rw [List.cons_append, hasWin, ih b (hasWin_cons_false ha) hb, Bool.or_false]
    by_cases hh : mentionHead (c :: (a' ++ ' ' :: b)) = true
    · exfalso
      obtain ⟨c2, t, ht, hw⟩ := mentionHead_shape hh
      injection ht with h1 h2
      rcases a' with _ | ⟨x, a''⟩
      · rw [List.nil_append] at h2
        injection h2 with e1 _
        rw [← e1] at hw
        exact absurd hw (by decide)
      · rw [List.cons_append] at h2
        injection h2 with e1 _
        rw [hasWin, Bool.or_eq_false_iff] at ha
        have : mentionHead (c :: x :: a'') = true := by
          rw [h1, e1]
          simp [mentionHead, hw]
        rw [this] at ha
        cases ha.1
    · simpa using hh

/-- Joining URL-start-free words with single spaces yields a
URL-start-free text. -/
theorem no_http_join :
    ∀ ws : List (List Char), (∀ w ∈ ws, hasWin httpHead w = false) →
      hasWin httpHead (join_words ws) = false := by
  intro ws
  induction ws with
  | nil => intro _; rfl
  | cons w ws2 ih =>
    intro hall
    cases ws2 with
    | nil => simpa [join_words] using hall w (List.mem_cons_self _ _)
    | cons w2 rest =>
      rw [show join_words (w :: w2 :: rest) = w ++ ' ' :: join_words (w2 :: rest) from rfl]
      exact no_http_cross w _ (hall w (List.mem_cons_self _ _))
        (ih (fun x hx => hall x (List.mem_cons_of_mem _ hx)))

/-- Joining mention-free words with single spaces yields a mention-free
text. -/
theorem no_mention_join :
    ∀ ws : List (List Char), (∀ w ∈ ws, hasWin mentionHead w = false) →
      hasWin mentionHead (join_words ws) = false := by
  intro ws
  induction ws with
  | nil => intro _; rfl
  | cons w ws2 ih =>
    intro hall
    cases ws2 with
    | nil => simpa [join_words] using hall w (List.mem_cons_self _ _)
    | cons w2 rest =>
      rw [show join_words (w :: w2 :: rest) = w ++ ' ' :: join_words (w2 :: rest) from rfl]
      exact no_mention_cross w _ (hall w (List.mem_cons_self _ _))
        (ih (fun x hx => hall x (List.mem_cons_of_mem _ hx)))

/-- Characters of a joined word list come from the pieces or are the
single separating space. -/
theorem mem_join_words :
    ∀ (ws : List (List Char)) (c : Char), c ∈ join_words ws →
      (∃ w ∈ ws, c ∈ w) ∨ c = ' ' := by
  intro ws
  induction ws with
  | nil => intro c h; cases h
  | cons w ws2 ih =>
    intro c h
    cases ws2 with
    | nil =>
      rw [join_words] at h
      exact .inl ⟨w, List.mem_cons_self _ _, h⟩
    | cons w2 rest =>
      rw [show join_words (w :: w2 :: rest) = w ++ ' ' :: join_words (w2 :: rest) from rfl] at h
      rcases List.mem_append.mp h with hw | hr
      · exact .inl ⟨w, List.mem_cons_self _ _, hw⟩
      · rcases List.mem_cons.mp hr with rfl | hj
        · exact .inr rfl
        · rcases ih c hj with ⟨x, hx, hcx⟩ | hsp
          · exact .inl ⟨x, List.mem_cons_of_mem _ hx, hcx⟩
          · exact .inr hsp

/-- `strip_urls` is the identity on URL-start-free text. -/
theorem strip_urls_id : ∀ l : List Char, hasWin httpHead l = false → strip_urls l = l := by
  intro l
  induction l using strip_urls.induct with
  | case1 => intro _; rw [strip_urls]
  | case2 c cs h ih =>
    intro hl
    rw [hasWin, Bool.or_eq_false_iff] at hl
    rw [h] at hl
    cases hl.1
  | case3 c cs h ih =>
    intro hl
    rw [strip_urls, if_neg h, ih (hasWin_cons_false hl)]

/-- `strip_mentions` is the identity on mention-free text. -/
theorem strip_mentions_id :
    ∀ l : List Char, hasWin mentionHead l = false → strip_mentions l = l := by
  intro l
  induction l using strip_mentions.induct with
  | case1 => intro _; rw [strip_mentions]
  | case2 c cs h ih =>
    intro hl
    rw [hasWin, Bool.or_eq_false_iff] at hl
    rw [h] at hl
    cases hl.1
  | case3 c cs h ih =>
    intro hl
    rw [strip_mentions, if_neg h, ih (hasWin_cons_false hl)]

/-- `strip_hashes` is the identity on hash-free text. -/
theorem strip_hashes_id : ∀ l : List Char, '#' ∉ l → strip_hashes l = l := by
  intro l h
  rw [strip_hashes]
  apply List.filter_eq_self.mpr
  intro a ha
  have hne : a ≠ '#' := fun e => h (e ▸ ha)
  simpa using hne

/-- `takeWhile` over a satisfying block stopped by a space. -/
theorem takeWhile_append_word :
    ∀ (w r : List Char), (∀ c ∈ w, notWsC c = true) →
      (w ++ ' ' :: r).takeWhile notWsC = w := by
  intro w
  induction w with
  | nil => intro r _; simp [List.takeWhile, notWsC]
  | cons c w' ih =>
    intro r hall
    rw [List.cons_append, List.takeWhile_cons,
      if_pos (hall c (List.mem_cons_self _ _)),
      ih r (fun x hx => hall x (List.mem_cons_of_mem _ hx))]

/-- `dropWhile` over a satisfying block stopped by a space. -/
theorem dropWhile_append_word :
    ∀ (w r : List Char), (∀ c ∈ w, notWsC c = true) →
      (w ++ ' ' :: r).dropWhile notWsC = ' ' :: r := by
  intro w
  induction w with
  | nil => intro r _; simp [List.dropWhile, notWsC]
  | cons c w' ih =>
    intro r hall
    rw [List.cons_append,
      List.dropWhile_cons_of_pos (hall c (List.mem_cons_self _ _)),
      ih r (fun x hx => hall x (List.mem_cons_of_mem _ hx))]

/-- `takeWhile` of an everywhere-satisfying list is the list. -/
theorem takeWhile_all :
    ∀ l : List Char, (∀ c ∈ l, notWsC c = true) → l.takeWhile notWsC = l := by
  intro l
  induction l with
  | nil => intro _; rfl
  | cons c cs ih =>
    intro hall
    rw [List.takeWhile_cons, if_pos (hall c (List.mem_cons_self _ _)),
      ih (fun x hx => hall x (List.mem_cons_of_mem _ hx))]

/-- `dropWhile` of an everywhere-satisfying list is empty. -/
theorem dropWhile_all :
    ∀ l : List Char, (∀ c ∈ l, notWsC c = true) → l.dropWhile notWsC = [] := by
  intro l
  induction l with
  | nil => intro _; rfl
  | cons c cs ih =>
    intro hall
    rw [List.dropWhile_cons_of_pos (hall c (List.mem_cons_self _ _)),
      ih (fun x hx => hall x (List.mem_cons_of_mem _ hx))]

/-- Splitting a single whitespace-free word. -/
theorem words_of_single :
    ∀ w : List Char, w ≠ [] → (∀ c ∈ w, notWsC c = true) → words_of w = [w] := by
  intro w hne hall
  cases w with
  | nil => exact absurd rfl hne
  | cons c cs =>
    have hcw : notWsC c = true := hall c (List.mem_cons_self _ _)
    have hc : ¬c.isWhitespace = true := by simpa [notWsC] using hcw
    rw [words_of, if_neg hc,
      takeWhile_all cs (fun x hx => hall x (List.mem_cons_of_mem _ hx)),
      dropWhile_all cs (fun x hx => hall x (List.mem_cons_of_mem _ hx)),
      words_of]

/-- Splitting a word followed by a space and further text. -/
theorem words_of_word_space :
    ∀ (w r : List Char), w ≠ [] → (∀ c ∈ w, notWsC c = true) →
      words_of (w ++ ' ' :: r) = w :: words_of r := by
  intro w r hne hall
  cases w with
  | nil => exact absurd rfl hne
  | cons c cs =>
    have hcw : notWsC c = true := hall c (List.mem_cons_self _ _)
    have hc : ¬c.isWhitespace = true := by simpa [notWsC] using hcw
    rw [List.cons_append, words_of, if_neg hc,
      takeWhile_append_word cs r (fun x hx => hall x (List.mem_cons_of_mem _ hx)),
      dropWhile_append_word cs r (fun x hx => hall x (List.mem_cons_of_mem _ hx)),
      words_of, if_pos (by decide)]

/-- Splitting a single-space join of non-empty whitespace-free words
recovers exactly the words. -/
theorem words_of_join :
    ∀ ws : List (List Char), (∀ w ∈ ws, w ≠ [] ∧ ∀ c ∈ w, notWsC c = true) →
      words_of (join_words ws) = ws := by
  intro ws
  induction ws with
  | nil => intro _; rw [join_words, words_of]
  | cons w ws2 ih =>
    intro hall
    cases ws2 with
    | nil =>
      rw [show join_words [w] = w from rfl]
      exact words_of_single w (hall w (List.mem_cons_self _ _)).1
        (hall w (List.mem_cons_self _ _)).2
    | cons w2 rest =>
      rw [show join_words (w :: w2 :: rest) = w ++ ' ' :: join_words (w2 :: rest) from rfl,
        words_of_word_space w _ (hall w (List.mem_cons_self _ _)).1
          (hall w (List.mem_cons_self _ _)).2,
        ih (fun x hx => hall x (List.mem_cons_of_mem _ hx))]

/-- C6.  The Text Normalizer is not idempotent as claimed: removing the
hashtag marker can manufacture a mention that the earlier mention pass
(run before the hash pass, in the spec's order of operations) never
saw.  On `"@#foo"` one pass yields `"@foo"`, a second pass yields the
empty text. -/
theorem c6_counterexample_hash_made_mention :
    normalize_text (normalize_text ['@', '#', 'f', 'o', 'o']) ≠
      normalize_text ['@', '#', 'f', 'o', 'o'] := by
  have h1 : normalize_text ['@', '#', 'f', 'o', 'o'] = ['@', 'f', 'o', 'o'] := by
    simp [normalize_text, collapse_ws, strip_hashes, strip_urls, strip_mentions,
      words_of, join_words, httpHead, mentionHead, wordChar, notWsC]
  have h2 : normalize_text ['@', 'f', 'o', 'o'] = [] := by
    simp [normalize_text, collapse_ws, strip_hashes, strip_urls, strip_mentions,
      words_of, join_words, httpHead, mentionHead, wordChar, notWsC]
  rw [h1, h2]
  decide

/-- C6 (amended).  On every text containing no hashtag marker `#`, the
Text Normalizer is idempotent: one pass leaves no URL start, no mention
and only collapsed single-space whitespace, so a second pass changes
nothing. -/
theorem c6_normalize_idempotent_hashfree :
    ∀ x : List Char, '#' ∉ x → normalize_text (normalize_text x) = normalize_text x := by
  intro x hx
  have hxu : '#' ∉ strip_urls x := fun h => hx (mem_strip_urls x '#' h)
  have hxm : '#' ∉ strip_mentions (strip_urls x) :=
    fun h => hxu (mem_strip_mentions _ '#' h)
  have hhash : strip_hashes (strip_mentions (strip_urls x)) =
      strip_mentions (strip_urls x) := strip_hashes_id _ hxm
  have hnx : normalize_text x =
      join_words (words_of (strip_mentions (strip_urls x))) := by
    rw [normalize_text, hhash]; rfl
  have hm_http : hasWin httpHead (strip_mentions (strip_urls x)) = false :=
    no_http_strip_mentions _ (no_http_strip_urls x)
  have hm_ment : hasWin mentionHead (strip_mentions (strip_urls x)) = false :=
    no_mention_strip_mentions _
  have hpieces := words_of_wsfree (strip_mentions (strip_urls x))
  have hwords_http : ∀ w ∈ words_of (strip_mentions (strip_urls x)),
      hasWin httpHead w = false :=
    words_of_no_win (fun _ _ h => httpHead_append h) _ hm_http
  have hwords_ment : ∀ w ∈ words_of (strip_mentions (strip_urls x)),
      hasWin mentionHead w = false :=
    words_of_no_win (fun _ _ h => mentionHead_append h) _ hm_ment
  have hy_http : hasWin httpHead (normalize_text x) = false := by
    rw [hnx]; exact no_http_join _ hwords_http
  have hy_ment : hasWin mentionHead (normalize_text x) = false := by
    rw [hnx]; exact no_mention_join _ hwords_ment
  have hy_hash : '#' ∉ normalize_text x := by
    rw [hnx]
    intro hcin
    rcases mem_join_words _ '#' hcin with ⟨w, hw, hcw⟩ | hsp
    · exact hxm (words_of_chars _ w hw '#' hcw)
    · exact absurd hsp (by decide)
  rw [show normalize_text (normalize_text x) =
      collapse_ws (strip_hashes (strip_mentions (strip_urls (normalize_text x)))) from rfl]
  rw [strip_urls_id _ hy_http, strip_mentions_id _ hy_ment, strip_hashes_id _ hy_hash, hnx]
  rw [show collapse_ws (join_words (words_of (strip_mentions (strip_urls x)))) =
      join_words (words_of (join_words (words_of (strip_mentions (strip_urls x))))) from rfl]
  rw [words_of_join _ hpieces]

/-- Witness for C6's amended idempotence on a hash-free text with a
URL, a mention and repeated whitespace. -/
theorem c6_normalize_idempotent_witness :
    '#' ∉ ['h', 'i', ' ', '@', 'b', 'o', 'b', ' ', ' ', 'h', 't', 't', 'p', ':', '/',
      '/', 'x', ' ', 'y'] ∧
    normalize_text (normalize_text ['h', 'i', ' ', '@', 'b', 'o', 'b', ' ', ' ', 'h',
        't', 't', 'p', ':', '/', '/', 'x', ' ', 'y']) =
      normalize_text ['h', 'i', ' ', '@', 'b', 'o', 'b', ' ', ' ', 'h', 't', 't', 'p',
        ':', '/', '/', 'x', ' ', 'y'] :=
  ⟨by decide,
    c6_normalize_idempotent_hashfree ['h', 'i', ' ', '@', 'b', 'o', 'b', ' ', ' ', 'h',
      't', 't', 'p', ':', '/', '/', 'x', ' ', 'y'] (by decide)⟩
